import Mathlib

/-!
Verification of the signal-processing core of the turbulenzspektren repository
(src/Python_3_11_3/plot.py).  Numeric values are embedded as rationals; numpy
float division by zero (which yields a non-finite value rather than raising)
is modelled by an Option, and the exception raised by an empty-array reduction
(np.min / np.max) by an Except error.
-/

namespace Turb

/-- Modelled from the spec: roll_mean lives in process.py, which is not under src
(plot.py only imports it).  Rolling Statistics, trailing convention: output element i
is the arithmetic mean of the up to winLen input elements ending at position i;
boundary elements are averaged over the available shorter window; the output has the
same length as the input and carries no NaN padding. -/
def roll_mean (y : List ℚ) (winLen : ℕ) : List ℚ :=
  (List.range y.length).map fun i =>
    let lo := i + 1 - winLen
    let window := (y.drop lo).take (i + 1 - lo)
    window.sum / (window.length : ℚ)

/-- Modelled from the spec: detrend_signal lives in process.py, which is not under src.
Ordinary least-squares best-fit line over the sample index, subtracted from every
value; a degenerate normal-equation denominator (series of length at most 1, where no
slope is determined) yields the zero slope, so constant and short series are handled
without error. -/
def detrend_signal (y : List ℚ) : List ℚ :=
  let n : ℚ := y.length
  let xs : List ℚ := (List.range y.length).map fun i => (i : ℚ)
  let sx := xs.sum
  let sy := y.sum
  let sxy := ((xs.zip y).map fun p => p.1 * p.2).sum
  let sxx := (xs.map fun x => x ^ 2).sum
  let denom := n * sxx - sx ^ 2
  let slope := if denom = 0 then 0 else (n * sxy - sx * sy) / denom
  let intercept := if n = 0 then 0 else (sy - slope * sx) / n
  (xs.zip y).map fun p => p.2 - (slope * p.1 + intercept)

/-- Modelled from the spec: the default window function of taper_signal (process.py,
not under src).  The spec fixes only the contract: a nonnegative weight for each index
of a support of length M, safe for M ≤ 1.  The concrete default in the repository is a
cosine-family taper, which is not exactly representable over the rationals, so a
triangular window satisfying the same contract stands in; no claim depends on the
numeric weight values. -/
def default_window (i M : ℕ) : ℚ :=
  if M ≤ 1 then 1 else 1 - |2 * (i : ℚ) / ((M : ℚ) - 1) - 1|

/-- Modelled from the spec: taper_signal lives in process.py, which is not under src.
The first and last floor(perc * N) samples receive weights from the window function
evaluated over a support of length 2 * floor(perc * N) (leading half for the leading
edge, trailing half for the trailing edge); interior samples keep weight 1; the
weights are multiplied elementwise into the values.  A perc yielding zero tapered
samples leaves the input unchanged. -/
def taper_signal (y : List ℚ) (perc : ℚ) (func : ℕ → ℕ → ℚ) : List ℚ :=
  let N := y.length
  let k := (⌊perc * (N : ℚ)⌋).toNat
  ((List.range N).zip y).map fun p =>
    let w : ℚ :=
      if p.1 < k then func p.1 (2 * k)
      else if N - k ≤ p.1 then func (p.1 - (N - k) + k) (2 * k)
      else 1
    w * p.2

/-- Modelled from the spec: calc_spectrum lives in process.py, which is not under src.
The discrete Fourier transform magnitudes are transcendental, so they enter as the
parameter dft (dft y k is the spectral power of y at bin k).  The statable structure
follows the spec: the sampling interval is derived from the first two timestamps, the
zero-frequency bin is excluded, frequencies ascend as k / (N * dt), and each power is
scaled by its frequency (energy density times frequency convention). -/
def calc_spectrum (dft : List ℚ → ℕ → ℚ) (x y : List ℚ) : List ℚ × List ℚ :=
  let dt : ℚ := match x with | a :: b :: _ => b - a | _ => 0
  let N := y.length
  let freqs := (List.range (N / 2)).map fun j => ((j + 1 : ℕ) : ℚ) / ((N : ℚ) * dt)
  (freqs, (List.range (N / 2)).map fun j =>
    (((j + 1 : ℕ) : ℚ) / ((N : ℚ) * dt)) * dft y (j + 1))

/-- plot.py line 44 (plot_ts, panel C): the fully conditioned series shown after the
preprocessing steps, tapering applied after detrending with taper fraction 0.1 and the
default window function. -/
def plot_ts_tapered (y : List ℚ) : List ℚ :=
  taper_signal (detrend_signal y) (1 / 10) default_window

/-- plot.py lines 63-64 (plot_spectrum): the series is detrended, then tapered with
fraction 0.1, and the spectrum is computed from the result. -/
def plot_spectrum_out (dft : List ℚ → ℕ → ℚ) (x y : List ℚ) : List ℚ × List ℚ :=
  let y_tapered := taper_signal (detrend_signal y) (1 / 10) default_window
  calc_spectrum dft x y_tapered

/-- plot.py line 352 (plot_win_influence): per window function wf, the spectrum of the
detrended-then-tapered series with fraction 0.1. -/
def plot_win_influence_out (dft : List ℚ → ℕ → ℚ) (wf : ℕ → ℕ → ℚ) (x y : List ℚ) :
    List ℚ × List ℚ :=
  calc_spectrum dft x (taper_signal (detrend_signal y) (1 / 10) wf)

/-- The exception raised by a numpy reduction over an empty array, as in np.min or
np.max of an empty deviation list (plot.py lines 281-282). -/
inductive EvalError
  | valueError
deriving DecidableEq

/-- The error_metrics dictionary built by plot_avg (plot.py line 266): one list per
metric name, entry i belonging to the i-th window length. -/
structure ErrorMetrics where
  mean : List ℚ
  std : List (Option ℚ)
  lower : List ℚ
  upper : List ℚ
deriving DecidableEq

instance : DecidableEq (Except EvalError ErrorMetrics) :=
  fun a b =>
    match a, b with
    | .ok x, .ok y => decidable_of_iff (x = y) (by simp)
    | .error x, .error y => decidable_of_iff (x = y) (by simp)
    | .ok _, .error _ => isFalse (by simp)
    | .error _, .ok _ => isFalse (by simp)

/-- np.round(q, 2): rounding to two decimal places.  The half-up tie rule of
Mathlib's round stands in for numpy's half-even rule; the two differ only on exact
decimal ties, which are not representable in the binary floats numpy rounds. -/
def round2 (q : ℚ) : ℚ := ((round (q * 100) : ℤ) : ℚ) / 100

/-- numpy float division: a zero divisor produces a non-finite value (nan or inf)
with a warning rather than raising; the non-finite outcome is modelled as none. -/
def floatDiv (a b : ℚ) : Option ℚ := if b = 0 then none else some (a / b)

/-- np.min: raises on an empty array, otherwise folds the binary minimum. -/
def npMin : List ℚ → Except EvalError ℚ
  | [] => .error .valueError
  | x :: xs => .ok (xs.foldl min x)

/-- np.max: raises on an empty array, otherwise folds the binary maximum. -/
def npMax : List ℚ → Except EvalError ℚ
  | [] => .error .valueError
  | x :: xs => .ok (xs.foldl max x)

/-- np.mean: the sum divided by the length. -/
def npMean (l : List ℚ) : ℚ := l.sum / (l.length : ℚ)

/-- Total value of np.min on a nonempty list (0 on the empty list, where np.min
raises instead). -/
def minD : List ℚ → ℚ
  | [] => 0
  | x :: xs => xs.foldl min x

/-- Total value of np.max on a nonempty list (0 on the empty list, where np.max
raises instead). -/
def maxD : List ℚ → ℚ
  | [] => 0
  | x :: xs => xs.foldl max x

/-- plot.py line 278: the elementwise deviation of the per-window smoothed series
from the reference, built with zip, which truncates to the shorter list. -/
def deviation (yRoll ref : List ℚ) : List ℚ :=
  (yRoll.zip ref).map fun p => p.1 - p.2

/-- plot.py line 280: Std is np.round of the sum of squared deviations divided by
(len(ref) - 1), an unguarded division. -/
def stdD (ref diff : List ℚ) : Option ℚ :=
  Option.map round2 (floatDiv ((diff.map fun d => d ^ 2).sum) ((ref.length : ℚ) - 1))

/-- plot.py lines 268-283: the loop over the window lengths.  For each window length
the series is smoothed, the deviation from the reference series is taken, and the four
metrics are appended (Std first, then Lower Range via np.min, Upper Range via np.max,
Mean via np.mean), with the np.min exception on an empty deviation list aborting the
whole evaluation, as an uncaught exception does in the source. -/
def avgLoop (yDet ref : List ℚ) : List ℕ → ErrorMetrics → Except EvalError ErrorMetrics
  | [], em => .ok em
  | winLen :: rest, em =>
    let diff := deviation (roll_mean yDet winLen) ref
    (npMin diff).bind fun lo =>
      (npMax diff).bind fun hi =>
        avgLoop yDet ref rest
          ⟨em.mean ++ [round2 (npMean diff)], em.std ++ [stdD ref diff],
           em.lower ++ [round2 lo], em.upper ++ [round2 hi]⟩

/-- plot.py lines 262-283: the multi-window averaging and error evaluator, taking the
detrended series.  Window lengths in minutes are converted to sample counts as
minutes * 60 * sample rate (lines 262-263), the reference smoothed series is computed
once (line 263), and the loop fills the error_metrics lists. -/
def evalAvg (yDet : List ℚ) (rate : ℕ) (windowsMin : List ℕ) (refMin : ℕ) :
    Except EvalError ErrorMetrics :=
  let winLens := windowsMin.map fun m => m * 60 * rate
  let ref := roll_mean yDet (refMin * 60 * rate)
  avgLoop yDet ref winLens ⟨[], [], [], []⟩

/-- plot.py lines 257-283 (plot_avg): the series is detrended (line 257) and the
evaluator runs on the detrended values; rate stands for SAMPLE_RATE[device],
windowsMin for WINDOWS_MIN and refMin for MITTELUNGSINTERVALL. -/
def plot_avg (y : List ℚ) (rate : ℕ) (windowsMin : List ℕ) (refMin : ℕ) :
    Except EvalError ErrorMetrics :=
  evalAvg (detrend_signal y) rate windowsMin refMin

/-- Follows the spec's words for the reuse guarantee of claim C3: the same loop, but
with the reference smoothed series recomputed inside the loop body for every window
length instead of being computed once outside it. -/
def avgLoopRecompute (yDet : List ℚ) (refLen : ℕ) :
    List ℕ → ErrorMetrics → Except EvalError ErrorMetrics
  | [], em => .ok em
  | winLen :: rest, em =>
    let ref := roll_mean yDet refLen
    let diff := deviation (roll_mean yDet winLen) ref
    (npMin diff).bind fun lo =>
      (npMax diff).bind fun hi =>
        avgLoopRecompute yDet refLen rest
          ⟨em.mean ++ [round2 (npMean diff)], em.std ++ [stdD ref diff],
           em.lower ++ [round2 lo], em.upper ++ [round2 hi]⟩

/-- The evaluator built on the per-iteration recomputation of the reference series. -/
def evalAvgRecompute (yDet : List ℚ) (rate : ℕ) (windowsMin : List ℕ) (refMin : ℕ) :
    Except EvalError ErrorMetrics :=
  avgLoopRecompute yDet (refMin * 60 * rate) (windowsMin.map fun m => m * 60 * rate)
    ⟨[], [], [], []⟩

/-- The reference smoothed series of the evaluator: the rolling mean at the reference
duration converted to a sample count as refMin minutes * 60 * rate (plot.py line 263). -/
def refSeries (yDet : List ℚ) (rate refMin : ℕ) : List ℚ :=
  roll_mean yDet (refMin * 60 * rate)

/-- The deviation list of one window length: the per-window smoothed series at
m minutes * 60 * rate samples minus the reference smoothed series, elementwise
(plot.py lines 262, 272, 278). -/
def diffSeries (yDet : List ℚ) (rate m refMin : ℕ) : List ℚ :=
  deviation (roll_mean yDet (m * 60 * rate)) (refSeries yDet rate refMin)

theorem roll_mean_length (y : List ℚ) (L : ℕ) : (roll_mean y L).length = y.length := by
  simp [roll_mean]

theorem deviation_length (a b : List ℚ) :
    (deviation a b).length = min a.length b.length := by
  simp [deviation]

theorem npMin_ok (l : List ℚ) (h : l ≠ []) : npMin l = .ok (minD l) := by
  cases l with
  | nil => exact absurd rfl h
  | cons x xs => rfl

theorem npMax_ok (l : List ℚ) (h : l ≠ []) : npMax l = .ok (maxD l) := by
  cases l with
  | nil => exact absurd rfl h
  | cons x xs => rfl

theorem foldl_min_le_init (xs : List ℚ) : ∀ x : ℚ, xs.foldl min x ≤ x := by
  induction xs with
  | nil => intro x; exact le_refl x
  | cons a as ih => intro x; exact le_trans (ih (min x a)) (min_le_left x a)

theorem foldl_max_init_le (xs : List ℚ) : ∀ x : ℚ, x ≤ xs.foldl max x := by
  induction xs with
  | nil => intro x; exact le_refl x
  | cons a as ih => intro x; exact le_trans (le_max_left x a) (ih (max x a))

theorem foldl_min_mem (xs : List ℚ) : ∀ x : ℚ, xs.foldl min x ∈ x :: xs := by
  induction xs with
  | nil => intro x; simp
  | cons a as ih =>
    intro x
    have h := ih (min x a)
    rw [List.foldl_cons]
    rcases List.mem_cons.mp h with h1 | h2
    · rcases min_choice x a with hx | ha
      · rw [h1, hx]; exact List.mem_cons_self _ _
      · rw [h1, ha]; exact List.mem_cons_of_mem _ (List.mem_cons_self _ _)
    · exact List.mem_cons_of_mem _ (List.mem_cons_of_mem _ h2)

theorem foldl_max_mem (xs : List ℚ) : ∀ x : ℚ, xs.foldl max x ∈ x :: xs := by
  induction xs with
  | nil => intro x; simp
  | cons a as ih =>
    intro x
    have h := ih (max x a)
    rw [List.foldl_cons]
    rcases List.mem_cons.mp h with h1 | h2
    · rcases max_choice x a with hx | ha
      · rw [h1, hx]; exact List.mem_cons_self _ _
      · rw [h1, ha]; exact List.mem_cons_of_mem _ (List.mem_cons_self _ _)
    · exact List.mem_cons_of_mem _ (List.mem_cons_of_mem _ h2)

theorem foldl_min_le (xs : List ℚ) :
    ∀ x d : ℚ, d ∈ x :: xs → xs.foldl min x ≤ d := by
  induction xs with
  | nil =>
    intro x d hd
    rw [List.mem_singleton] at hd
    rw [hd]
    exact le_refl x
  | cons a as ih =>
    intro x d hd
    rw [List.foldl_cons]
    rcases List.mem_cons.mp hd with h1 | h2
    · rw [h1]; exact le_trans (foldl_min_le_init as (min x a)) (min_le_left x a)
    · rcases List.mem_cons.mp h2 with h3 | h4
      · rw [h3]; exact le_trans (foldl_min_le_init as (min x a)) (min_le_right x a)
      · exact ih (min x a) d (List.mem_cons_of_mem _ h4)

theorem foldl_le_max (xs : List ℚ) :
    ∀ x d : ℚ, d ∈ x :: xs → d ≤ xs.foldl max x := by
  induction xs with
  | nil =>
    intro x d hd
    rw [List.mem_singleton] at hd
    rw [hd]
    exact le_refl x
  | cons a as ih =>
    intro x d hd
    rw [List.foldl_cons]
    rcases List.mem_cons.mp hd with h1 | h2
    · rw [h1]; exact le_trans (le_max_left x a) (foldl_max_init_le as (max x a))
    · rcases List.mem_cons.mp h2 with h3 | h4
      · rw [h3]; exact le_trans (le_max_right x a) (foldl_max_init_le as (max x a))
      · exact ih (max x a) d (List.mem_cons_of_mem _ h4)

theorem minD_mem (l : List ℚ) (h : l ≠ []) : minD l ∈ l := by
  cases l with
  | nil => exact absurd rfl h
  | cons x xs => exact foldl_min_mem xs x

theorem maxD_mem (l : List ℚ) (h : l ≠ []) : maxD l ∈ l := by
  cases l with
  | nil => exact absurd rfl h
  | cons x xs => exact foldl_max_mem xs x

theorem minD_le (l : List ℚ) (d : ℚ) (hd : d ∈ l) : minD l ≤ d := by
  cases l with
  | nil => exact absurd hd (List.not_mem_nil d)
  | cons x xs => exact foldl_min_le xs x d hd

theorem le_maxD (l : List ℚ) (d : ℚ) (hd : d ∈ l) : d ≤ maxD l := by
  cases l with
  | nil => exact absurd hd (List.not_mem_nil d)
  | cons x xs => exact foldl_le_max xs x d hd

theorem minD_le_maxD (l : List ℚ) : minD l ≤ maxD l := by
  cases l with
  | nil => exact le_refl 0
  | cons x xs =>
    exact le_trans (foldl_min_le_init xs x) (foldl_max_init_le xs x)

theorem round2_mono {a b : ℚ} (h : a ≤ b) : round2 a ≤ round2 b := by
  unfold round2
  have h1 : round (a * 100) ≤ round (b * 100) := by
    rw [round_eq, round_eq]
    exact Int.floor_le_floor (by linarith)
  have h2 : ((round (a * 100) : ℤ) : ℚ) ≤ ((round (b * 100) : ℤ) : ℚ) := by
    exact_mod_cast h1
  linarith

theorem round2_zero : round2 0 = 0 := by
  simp [round2]

theorem round2_nonneg {a : ℚ} (h : 0 ≤ a) : 0 ≤ round2 a := by
  have := round2_mono h
  rw [round2_zero] at this
  exact this

theorem deviation_self (s : List ℚ) : deviation s s = List.replicate s.length 0 := by
  induction s with
  | nil => rfl
  | cons a as ih =>
    simp only [deviation, List.zip_cons_cons, List.map_cons, sub_self, List.length_cons,
      List.replicate_succ]
    exact congrArg _ ih

theorem bind_min_ok (a : ℚ) (f : ℚ → Except EvalError ErrorMetrics) :
    (Except.ok a : Except EvalError ℚ).bind f = f a := rfl

/-- The loop of plot_avg never fails on a nonempty detrended series whose reference
series has the same length, and its result appends, per window length, the rounded
mean, Std, minimum and maximum of the deviation list to the four metric lists. -/
theorem avgLoop_ok (yDet ref : List ℚ) (hy : yDet ≠ []) (hr : ref.length = yDet.length) :
    ∀ (Ls : List ℕ) (em : ErrorMetrics),
      avgLoop yDet ref Ls em = .ok
        ⟨em.mean ++ Ls.map fun L => round2 (npMean (deviation (roll_mean yDet L) ref)),
         em.std ++ Ls.map fun L => stdD ref (deviation (roll_mean yDet L) ref),
         em.lower ++ Ls.map fun L => round2 (minD (deviation (roll_mean yDet L) ref)),
         em.upper ++ Ls.map fun L => round2 (maxD (deviation (roll_mean yDet L) ref))⟩ := by
  intro Ls
  induction Ls with
  | nil => intro em; simp [avgLoop]
  | cons L rest ih =>
    intro em
    have hne : deviation (roll_mean yDet L) ref ≠ [] := by
      have hlen : (deviation (roll_mean yDet L) ref).length = yDet.length := by
        rw [deviation_length, roll_mean_length, hr, min_self]
      intro hc
      rw [hc, List.length_nil] at hlen
      exact hy (List.length_eq_zero.mp hlen.symm)
    rw [avgLoop, npMin_ok _ hne, npMax_ok _ hne, bind_min_ok, bind_min_ok, ih]
    simp [List.append_assoc]

/-- The evaluator on a nonempty detrended series: one record per window length, each
computed from the deviation of the smoothed series at minutes * 60 * rate samples
from the reference smoothed series at refMin * 60 * rate samples. -/
theorem evalAvg_ok (yDet : List ℚ) (rate : ℕ) (ws : List ℕ) (refMin : ℕ)
    (hy : yDet ≠ []) :
    evalAvg yDet rate ws refMin = .ok
      ⟨ws.map fun m => round2 (npMean (deviation (roll_mean yDet (m * 60 * rate))
          (roll_mean yDet (refMin * 60 * rate)))),
       ws.map fun m => stdD (roll_mean yDet (refMin * 60 * rate))
          (deviation (roll_mean yDet (m * 60 * rate)) (roll_mean yDet (refMin * 60 * rate))),
       ws.map fun m => round2 (minD (deviation (roll_mean yDet (m * 60 * rate))
          (roll_mean yDet (refMin * 60 * rate)))),
       ws.map fun m => round2 (maxD (deviation (roll_mean yDet (m * 60 * rate))
          (roll_mean yDet (refMin * 60 * rate))))⟩ := by
  unfold evalAvg
  rw [avgLoop_ok yDet _ hy (roll_mean_length _ _)]
  simp [List.map_map, Function.comp]

/-- On an empty series with a nonempty window length set, the first iteration takes
np.min of an empty deviation list and the evaluation fails. -/
theorem evalAvg_nil (rate : ℕ) (ws : List ℕ) (refMin : ℕ) (hw : ws ≠ []) :
    evalAvg [] rate ws refMin = .error .valueError := by
  cases ws with
  | nil => exact absurd rfl hw
  | cons w rest =>
    simp [evalAvg, avgLoop, roll_mean, deviation, npMin, Except.bind]

theorem exceptBindCongr (e : Except EvalError ℚ)
    (f g : ℚ → Except EvalError ErrorMetrics) (h : ∀ a, f a = g a) :
    e.bind f = e.bind g := by
  cases e with
  | error err => rfl
  | ok a => exact h a

theorem avgLoopRecompute_eq (yDet : List ℚ) (refLen : ℕ) :
    ∀ (Ls : List ℕ) (em : ErrorMetrics),
      avgLoopRecompute yDet refLen Ls em = avgLoop yDet (roll_mean yDet refLen) Ls em := by
  intro Ls
  induction Ls with
  | nil => intro em; rfl
  | cons L rest ih =>
    intro em
    rw [avgLoopRecompute, avgLoop]
    apply exceptBindCongr
    intro lo
    apply exceptBindCongr
    intro hi
    exact ih _

/-- C3: the reference smoothed series is computed once, outside the window loop, and
reused for every window length; the result coincides with the variant that recomputes
the reference inside the loop for each window length (the transforms are pure, so
there is no recomputation drift). -/
theorem C3_reference_computed_once (yDet : List ℚ) (rate : ℕ) (ws : List ℕ)
    (refMin : ℕ) :
    evalAvg yDet rate ws refMin = evalAvgRecompute yDet rate ws refMin := by
  unfold evalAvg evalAvgRecompute
  exact (avgLoopRecompute_eq yDet (refMin * 60 * rate) _ _).symm

/-- C7: every spectrum the pipeline produces is computed from the value array
conditioned in the fixed order detrend first, then taper with fraction 0.1: this holds
for plot_spectrum (lines 63-64), for the conditioned series of plot_ts (line 44), and
for every window function used by plot_win_influence (line 352). -/
theorem C7_detrend_then_taper (dft : List ℚ → ℕ → ℚ) (x y : List ℚ) :
    plot_spectrum_out dft x y =
      calc_spectrum dft x (taper_signal (detrend_signal y) (1 / 10) default_window) ∧
    plot_ts_tapered y = taper_signal (detrend_signal y) (1 / 10) default_window ∧
    ∀ wf, plot_win_influence_out dft wf x y =
      calc_spectrum dft x (taper_signal (detrend_signal y) (1 / 10) wf) :=
  ⟨rfl, rfl, fun _ => rfl⟩

/-- C8: for a window length L with 1 ≤ L ≤ length, roll_mean keeps the length of its
input, and the first output element is the mean of the available one-element boundary
window, i.e. the first input element itself (no NaN padding at the boundary). -/
theorem C8_roll_mean_same_length (y : List ℚ) (L : ℕ) (h1 : 1 ≤ L)
    (h2 : L ≤ y.length) :
    (roll_mean y L).length = y.length ∧ (roll_mean y L).head? = y.head? := by
  refine ⟨roll_mean_length y L, ?_⟩
  cases y with
  | nil => simp [roll_mean]
  | cons a ys =>
    simp only [roll_mean, List.length_cons, List.range_succ_eq_map, List.map_cons,
      List.head?_cons]
    have hlo : 0 + 1 - L = 0 := Nat.sub_eq_zero_of_le h1
    simp [hlo]

/-- C8 witness. -/
theorem C8_roll_mean_same_length_witness :
    (roll_mean [1, 2, 3] 2).length = ([1, 2, 3] : List ℚ).length ∧
    (roll_mean [1, 2, 3] 2).head? = ([1, 2, 3] : List ℚ).head? :=
  C8_roll_mean_same_length [1, 2, 3] 2 (by norm_num) (by norm_num)

/-- C5 counterexample: fed smoothed and reference series of different lengths (3 and
2), the evaluator loop does not fail: the deviation list is silently truncated to the
shorter length 2 by zip and a metrics record is produced from it. -/
theorem C5_counterexample :
    (roll_mean [1, 2, 3] 1).length ≠ ([1, 2] : List ℚ).length ∧
    (deviation (roll_mean [1, 2, 3] 1) [1, 2]).length = 2 ∧
    avgLoop [1, 2, 3] [1, 2] [1] ⟨[], [], [], []⟩ = .ok ⟨[0], [some 0], [0], [0]⟩ := by
  refine ⟨?_, ?_, ?_⟩ <;>
    norm_num [avgLoop, roll_mean, deviation, npMin, npMax, npMean, stdD, floatDiv,
      round2, minD, maxD, List.range_succ, Except.bind]

/-- C5 amended: no DimensionMismatch error exists; the deviation list is built with
zip and therefore truncates to the shorter of the per-window and reference series.
Inside the evaluator itself both series always have the length of the input series
(the rolling mean preserves length), so the truncation is never exercised there. -/
theorem C5_zip_truncation (a b y : List ℚ) (L R : ℕ) :
    (deviation a b).length = min a.length b.length ∧
    (deviation (roll_mean y L) (roll_mean y R)).length = y.length := by
  refine ⟨deviation_length a b, ?_⟩
  rw [deviation_length, roll_mean_length, roll_mean_length, min_self]

/-- C4 counterexample: on a series with a single sample (fewer than 2), the evaluator
does not fail: it emits a metrics record for every window length, whose Std entries
are the non-finite result of the division by len(ref) - 1 = 0 (modelled none) and
whose other metrics are 0.0. -/
theorem C4_counterexample :
    ([5] : List ℚ).length < 2 ∧
    evalAvg [5] 1 [1] 10 = .ok ⟨[0], [none], [0], [0]⟩ := by
  constructor
  · norm_num
  · norm_num [evalAvg, avgLoop, roll_mean, deviation, npMin, npMax, npMean, stdD,
      floatDiv, round2, minD, maxD, List.range_succ, Except.bind]

/-- C4 amended: the evaluator has no minimum-sample-count check and raises no
InsufficientData error.  For every nonempty series, a metrics record is emitted (on a
single sample the Std division is by zero); only for an empty series (and a nonempty
window length set) does the run fail, with the empty-reduction error of np.min, not
with InsufficientData. -/
theorem C4_no_insufficient_data_error (yDet : List ℚ) (rate : ℕ) (ws : List ℕ)
    (refMin : ℕ) :
    (yDet ≠ [] → ∃ em, evalAvg yDet rate ws refMin = .ok em) ∧
    (yDet = [] → ws ≠ [] → evalAvg yDet rate ws refMin = .error .valueError) := by
  constructor
  · intro hy
    exact ⟨_, evalAvg_ok yDet rate ws refMin hy⟩
  · intro hy hw
    subst hy
    exact evalAvg_nil rate ws refMin hw

/-- C4 witness. -/
theorem C4_no_insufficient_data_error_witness :
    (∃ em, evalAvg [3] 1 [1] 10 = .ok em) ∧
    evalAvg [] 1 [1] 10 = .error .valueError :=
  ⟨(C4_no_insufficient_data_error [3] 1 [1] 10).1 (by norm_num),
   (C4_no_insufficient_data_error [] 1 [1] 10).2 rfl (by norm_num)⟩

/-- C1: for every detrended series (with the at least 2 samples the Std divisor
requires) and every member L of the window length set, the emitted record holds the
arithmetic mean of the elementwise deviations from the reference smoothed series, the
sum of squared deviations divided by N - 1 with N the reference series length, the
minimum deviation (Lower Range) and the maximum deviation (Upper Range), each rounded
to 2 decimal places. -/
theorem C1_error_metrics_record (yDet : List ℚ) (rate : ℕ) (ws : List ℕ) (refMin : ℕ)
    (em : ErrorMetrics) (i L : ℕ) (hn : 2 ≤ yDet.length)
    (hok : evalAvg yDet rate ws refMin = .ok em) (hL : ws[i]? = some L) :
    em.mean[i]? = some (round2 ((diffSeries yDet rate L refMin).sum /
      ((diffSeries yDet rate L refMin).length : ℚ))) ∧
    em.std[i]? = some (some (round2
      (((diffSeries yDet rate L refMin).map fun d => d ^ 2).sum /
        (((refSeries yDet rate refMin).length : ℚ) - 1)))) ∧
    (∃ m, em.lower[i]? = some (round2 m) ∧ m ∈ diffSeries yDet rate L refMin ∧
      ∀ d ∈ diffSeries yDet rate L refMin, m ≤ d) ∧
    (∃ M, em.upper[i]? = some (round2 M) ∧ M ∈ diffSeries yDet rate L refMin ∧
      ∀ d ∈ diffSeries yDet rate L refMin, d ≤ M) := by
  have hy : yDet ≠ [] := by
    intro hc
    rw [hc] at hn
    simp at hn
  have hreflen : (refSeries yDet rate refMin).length = yDet.length :=
    roll_mean_length _ _
  have hdlen : (diffSeries yDet rate L refMin).length = yDet.length := by
    unfold diffSeries
    rw [deviation_length, roll_mean_length, hreflen, min_self]
  have hdne : diffSeries yDet rate L refMin ≠ [] := by
    intro hc
    rw [hc, List.length_nil] at hdlen
    exact hy (List.length_eq_zero.mp hdlen.symm)
  have hden : ((refSeries yDet rate refMin).length : ℚ) - 1 ≠ 0 := by
    rw [hreflen]
    have h2 : (2 : ℚ) ≤ (yDet.length : ℚ) := by exact_mod_cast hn
    intro hc
    linarith
  rw [evalAvg_ok yDet rate ws refMin hy] at hok
  injection hok with h
  subst h
  refine ⟨?_, ?_, ?_, ?_⟩
  · simp [List.getElem?_map, hL, npMean, diffSeries, refSeries]
  · simp only [List.getElem?_map, hL, Option.map_some']
    unfold diffSeries refSeries at hden ⊢
    simp only [stdD, floatDiv, if_neg hden]
    rfl
  · refine ⟨minD (diffSeries yDet rate L refMin), ?_, minD_mem _ hdne,
      fun d hd => minD_le _ d hd⟩
    simp [List.getElem?_map, hL, diffSeries, refSeries]
  · refine ⟨maxD (diffSeries yDet rate L refMin), ?_, maxD_mem _ hdne,
      fun d hd => le_maxD _ d hd⟩
    simp [List.getElem?_map, hL, diffSeries, refSeries]

/-- C1 witness. -/
theorem C1_error_metrics_record_witness :
    2 ≤ ([1, 2] : List ℚ).length ∧
    (([0] : List ℚ)[0]? = some (round2 ((diffSeries [1, 2] 1 10 10).sum /
        ((diffSeries [1, 2] 1 10 10).length : ℚ))) ∧
      ([some 0] : List (Option ℚ))[0]? = some (some (round2
        (((diffSeries [1, 2] 1 10 10).map fun d => d ^ 2).sum /
          (((refSeries [1, 2] 1 10).length : ℚ) - 1)))) ∧
      (∃ m, ([0] : List ℚ)[0]? = some (round2 m) ∧ m ∈ diffSeries [1, 2] 1 10 10 ∧
        ∀ d ∈ diffSeries [1, 2] 1 10 10, m ≤ d) ∧
      (∃ M, ([0] : List ℚ)[0]? = some (round2 M) ∧ M ∈ diffSeries [1, 2] 1 10 10 ∧
        ∀ d ∈ diffSeries [1, 2] 1 10 10, d ≤ M)) :=
  ⟨by norm_num,
   C1_error_metrics_record [1, 2] 1 [10] 10 ⟨[0], [some 0], [0], [0]⟩ 0 10
     (by norm_num)
     (by norm_num [evalAvg, avgLoop, roll_mean, deviation, npMin, npMax, npMean,
        stdD, floatDiv, round2, minD, maxD, List.range_succ, Except.bind])
     rfl⟩

/-- C2: when the i-th member of the window length set equals the reference duration
(in minutes), the i-th record compares the smoothed series with itself and reports
Mean = 0.0, Std = 0.0, Lower Range = 0.0 and Upper Range = 0.0, for every input
series with the at least 2 samples the Std divisor requires. -/
theorem C2_reference_window_zero (yDet : List ℚ) (rate : ℕ) (ws : List ℕ) (refMin : ℕ)
    (em : ErrorMetrics) (i : ℕ) (hn : 2 ≤ yDet.length) (hmem : ws[i]? = some refMin)
    (hok : evalAvg yDet rate ws refMin = .ok em) :
    em.mean[i]? = some 0 ∧ em.std[i]? = some (some 0) ∧
    em.lower[i]? = some 0 ∧ em.upper[i]? = some 0 := by
  have hy : yDet ≠ [] := by
    intro hc
    rw [hc] at hn
    simp at hn
  have hden : ((roll_mean yDet (refMin * 60 * rate)).length : ℚ) - 1 ≠ 0 := by
    rw [roll_mean_length]
    have h2 : (2 : ℚ) ≤ (yDet.length : ℚ) := by exact_mod_cast hn
    intro hc
    linarith
  have hself : deviation (roll_mean yDet (refMin * 60 * rate))
      (roll_mean yDet (refMin * 60 * rate)) =
      List.replicate yDet.length (0 : ℚ) := by
    rw [deviation_self, roll_mean_length]
  have hne : List.replicate yDet.length (0 : ℚ) ≠ [] := by
    intro hc
    have hlen := congrArg List.length hc
    simp at hlen
    rw [hlen] at hn
    simp at hn
  rw [evalAvg_ok yDet rate ws refMin hy] at hok
  injection hok with h
  subst h
  refine ⟨?_, ?_, ?_, ?_⟩
  · simp [List.getElem?_map, hmem, hself, npMean, List.sum_replicate, round2_zero]
  · simp only [List.getElem?_map, hmem, Option.map_some', Option.some.injEq]
    rw [hself]
    simp [stdD, floatDiv, if_neg hden, List.map_replicate, List.sum_replicate,
      round2_zero]
  · simp only [List.getElem?_map, hmem, Option.map_some', Option.some.injEq]
    rw [hself]
    have hm := List.eq_of_mem_replicate (minD_mem _ hne)
    rw [hm, round2_zero]
  · simp only [List.getElem?_map, hmem, Option.map_some', Option.some.injEq]
    rw [hself]
    have hm := List.eq_of_mem_replicate (maxD_mem _ hne)
    rw [hm, round2_zero]

/-- C2 witness. -/
theorem C2_reference_window_zero_witness :
    2 ≤ ([1, 2] : List ℚ).length ∧
    (([0] : List ℚ)[0]? = some 0 ∧
      ([some 0] : List (Option ℚ))[0]? = some (some 0) ∧
      ([0] : List ℚ)[0]? = some 0 ∧ ([0] : List ℚ)[0]? = some 0) :=
  ⟨by norm_num,
   C2_reference_window_zero [1, 2] 1 [10] 10 ⟨[0], [some 0], [0], [0]⟩ 0
     (by norm_num) rfl
     (by norm_num [evalAvg, avgLoop, roll_mean, deviation, npMin, npMax, npMean,
        stdD, floatDiv, round2, minD, maxD, List.range_succ, Except.bind])⟩

/-- C6: for every window duration m of the window length set and for the reference
duration, the evaluator converts minutes to a sample count as m * 60 * rate and uses
that count as the rolling-statistics window length: the emitted record lists are the
maps over the window length set of the metrics of the deviation of
roll_mean at m * 60 * rate samples from roll_mean at refMin * 60 * rate samples. -/
theorem C6_window_sample_conversion (yDet : List ℚ) (rate : ℕ) (ws : List ℕ)
    (refMin : ℕ) (hy : yDet ≠ []) :
    evalAvg yDet rate ws refMin = .ok
      ⟨ws.map fun m => round2 (npMean (deviation (roll_mean yDet (m * 60 * rate))
          (roll_mean yDet (refMin * 60 * rate)))),
       ws.map fun m => stdD (roll_mean yDet (refMin * 60 * rate))
          (deviation (roll_mean yDet (m * 60 * rate))
            (roll_mean yDet (refMin * 60 * rate))),
       ws.map fun m => round2 (minD (deviation (roll_mean yDet (m * 60 * rate))
          (roll_mean yDet (refMin * 60 * rate)))),
       ws.map fun m => round2 (maxD (deviation (roll_mean yDet (m * 60 * rate))
          (roll_mean yDet (refMin * 60 * rate))))⟩ :=
  evalAvg_ok yDet rate ws refMin hy

/-- C6 witness. -/
theorem C6_window_sample_conversion_witness :
    ([1, 2] : List ℚ) ≠ [] ∧
    evalAvg [1, 2] 1 [10] 10 = .ok
      ⟨[10].map fun m => round2 (npMean (deviation (roll_mean [1, 2] (m * 60 * 1))
          (roll_mean [1, 2] (10 * 60 * 1)))),
       [10].map fun m => stdD (roll_mean [1, 2] (10 * 60 * 1))
          (deviation (roll_mean [1, 2] (m * 60 * 1)) (roll_mean [1, 2] (10 * 60 * 1))),
       [10].map fun m => round2 (minD (deviation (roll_mean [1, 2] (m * 60 * 1))
          (roll_mean [1, 2] (10 * 60 * 1)))),
       [10].map fun m => round2 (maxD (deviation (roll_mean [1, 2] (m * 60 * 1))
          (roll_mean [1, 2] (10 * 60 * 1))))⟩ :=
  ⟨by simp, C6_window_sample_conversion [1, 2] 1 [10] 10 (by simp)⟩

/-- C9: in every emitted record the rounded Lower Range never exceeds the rounded
Upper Range: the minimum of the deviation list is at most its maximum, and rounding
to 2 decimal places is monotone. -/
theorem C9_lower_le_upper (yDet : List ℚ) (rate : ℕ) (ws : List ℕ) (refMin : ℕ)
    (em : ErrorMetrics) (i : ℕ) (lo hi : ℚ)
    (hok : evalAvg yDet rate ws refMin = .ok em)
    (hlo : em.lower[i]? = some lo) (hhi : em.upper[i]? = some hi) : lo ≤ hi := by
  by_cases hy : yDet = []
  · subst hy
    cases ws with
    | nil =>
      have hok2 : (⟨[], [], [], []⟩ : ErrorMetrics) = em := by
        injection hok
      rw [← hok2] at hlo
      simp at hlo
    | cons w rest =>
      rw [evalAvg_nil rate (w :: rest) refMin (by simp)] at hok
      exact absurd hok (by simp)
  · rw [evalAvg_ok yDet rate ws refMin hy] at hok
    injection hok with h
    subst h
    simp only [List.getElem?_map] at hlo hhi
    cases hwi : ws[i]? with
    | none =>
      rw [hwi] at hlo
      simp at hlo
    | some m =>
      rw [hwi] at hlo hhi
      simp only [Option.map_some', Option.some.injEq] at hlo hhi
      rw [← hlo, ← hhi]
      exact round2_mono (minD_le_maxD _)

/-- C9 witness. -/
theorem C9_lower_le_upper_witness :
    evalAvg [1, 2] 1 [10] 10 = .ok ⟨[0], [some 0], [0], [0]⟩ ∧ (0 : ℚ) ≤ 0 := by
  have hok : evalAvg [1, 2] 1 [10] 10 = .ok ⟨[0], [some 0], [0], [0]⟩ := by
    norm_num [evalAvg, avgLoop, roll_mean, deviation, npMin, npMax, npMean,
      stdD, floatDiv, round2, minD, maxD, List.range_succ, Except.bind]
  exact ⟨hok,
    C9_lower_le_upper [1, 2] 1 [10] 10 ⟨[0], [some 0], [0], [0]⟩ 0 0 0 hok rfl rfl⟩

/-- C10: over a series with at least 2 samples, every Std entry of the emitted record
is a defined (finite) value and is nonnegative: it is a sum of squares divided by the
positive N - 1, and rounding to 2 decimal places preserves nonnegativity. -/
theorem C10_std_nonneg (yDet : List ℚ) (rate : ℕ) (ws : List ℕ) (refMin : ℕ)
    (em : ErrorMetrics) (hn : 2 ≤ yDet.length)
    (hok : evalAvg yDet rate ws refMin = .ok em) :
    ∀ s ∈ em.std, ∃ q, s = some q ∧ 0 ≤ q := by
  have hy : yDet ≠ [] := by
    intro hc
    rw [hc] at hn
    simp at hn
  have hden : ((roll_mean yDet (refMin * 60 * rate)).length : ℚ) - 1 ≠ 0 := by
    rw [roll_mean_length]
    have h2 : (2 : ℚ) ≤ (yDet.length : ℚ) := by exact_mod_cast hn
    intro hc
    linarith
  have hdenpos : 0 ≤ ((roll_mean yDet (refMin * 60 * rate)).length : ℚ) - 1 := by
    rw [roll_mean_length]
    have h2 : (2 : ℚ) ≤ (yDet.length : ℚ) := by exact_mod_cast hn
    linarith
  rw [evalAvg_ok yDet rate ws refMin hy] at hok
  injection hok with h
  subst h
  intro s hs
  simp only [List.mem_map] at hs
  obtain ⟨m, hm, rfl⟩ := hs
  refine ⟨round2 (((deviation (roll_mean yDet (m * 60 * rate))
      (roll_mean yDet (refMin * 60 * rate))).map fun d => d ^ 2).sum /
      (((roll_mean yDet (refMin * 60 * rate)).length : ℚ) - 1)), ?_, ?_⟩
  · simp [stdD, floatDiv, if_neg hden]
  · apply round2_nonneg
    apply div_nonneg _ hdenpos
    apply List.sum_nonneg
    intro q hq
    obtain ⟨d, hd, rfl⟩ := List.mem_map.mp hq
    exact sq_nonneg d

/-- C10 witness. -/
theorem C10_std_nonneg_witness :
    2 ≤ ([1, 2] : List ℚ).length ∧
    ∀ s ∈ ([some 0] : List (Option ℚ)), ∃ q, s = some q ∧ 0 ≤ q :=
  ⟨by norm_num,
   C10_std_nonneg [1, 2] 1 [10] 10 ⟨[0], [some 0], [0], [0]⟩ (by norm_num)
     (by norm_num [evalAvg, avgLoop, roll_mean, deviation, npMin, npMax, npMean,
        stdD, floatDiv, round2, minD, maxD, List.range_succ, Except.bind])⟩

end Turb
